import Mathlib

/-!
Shallow embedding of `func_synth.py`: a typed, grammar-driven random
program synthesizer.  Python runtime values are modelled by `Value`,
Python exceptions by `Err`, expression-tree nodes (one Lean constructor
per Python node class) by `Node`, and the `random.choice` calls by an
explicit oracle `Oracle` (a list of indices, one consumed per draw; every
actual run of the Python program corresponds to some oracle, and every
oracle describes a possible run).
-/

/-- Python runtime values that can flow through the synthesizer:
ints, bools, strings and lists. -/
inductive Value : Type where
  | int (n : Int)
  | bool (b : Bool)
  | str (s : String)
  | list (elts : List Value)

/-- Python exceptions raised by the source program. -/
inductive Err : Type where
  | indexError
  | valueError (msg : String)
  | runtimeError (msg : String)
  | keyError (msg : String)
  | nameError (msg : String)
  | typeError (msg : String)
deriving DecidableEq, Repr

/-- Python truthiness (`bool(v)`): zero ints, `False`, empty strings and
empty lists are falsy. -/
def truthy : Value → Bool
  | Value.int n => n != 0
  | Value.bool b => b
  | Value.str s => !s.isEmpty
  | Value.list l => !l.isEmpty

/-- Python `bool` is a subclass of `int`: its numeric value. -/
def boolToInt (b : Bool) : Int := cond b 1 0

/-- Python binary `+` on the values the synthesizer can produce. -/
def pyAdd : Value → Value → Except Err Value
  | Value.int a, Value.int b => Except.ok (Value.int (a + b))
  | Value.int a, Value.bool b => Except.ok (Value.int (a + boolToInt b))
  | Value.bool a, Value.int b => Except.ok (Value.int (boolToInt a + b))
  | Value.bool a, Value.bool b => Except.ok (Value.int (boolToInt a + boolToInt b))
  | Value.str a, Value.str b => Except.ok (Value.str (a ++ b))
  | Value.list a, Value.list b => Except.ok (Value.list (a ++ b))
  | _, _ => Except.error (Err.typeError "unsupported operand types for +")

/-- Python `len` on the values the synthesizer can produce. -/
def pyLen : Value → Except Err Value
  | Value.str s => Except.ok (Value.int s.length)
  | Value.list l => Except.ok (Value.int l.length)
  | _ => Except.error (Err.typeError "object has no len")

/-- Python `repr` of a value (used by `str` on lists). -/
def pyRepr : Value → String
  | Value.int n => toString n
  | Value.bool b => cond b "True" "False"
  | Value.str s => "\x27" ++ s ++ "\x27"
  | Value.list l => "[" ++ String.intercalate ", " (l.attach.map (fun x => pyRepr x.1)) ++ "]"
decreasing_by
  have := x.2
  simp only [Value.list.sizeOf_spec]
  calc sizeOf x.1 < sizeOf l := List.sizeOf_lt_of_mem this
    _ < 1 + sizeOf l := by omega

/-- Python `str` of a value: `str(5) = "5"`, `str(True) = "True"`,
`str` of a string is itself, `str` of a list is its `repr`. -/
def pyStr : Value → String
  | Value.int n => toString n
  | Value.bool b => cond b "True" "False"
  | Value.str s => s
  | Value.list l => pyRepr (Value.list l)

/-- The semantic types a parameter can declare (`argtype` is one of the
classes `SynthInt`, `SynthBool`, `SynthStr`, `SynthList`). -/
inductive Ty : Type where
  | int
  | bool
  | str
  | list
deriving DecidableEq, Repr

/-- `SynthArg(name, argtype)`: a declared input parameter. -/
structure Arg : Type where
  name : String
  argtype : Ty
deriving DecidableEq, Repr

/-- Expression-tree nodes, one constructor per instantiable Python node
class.  Fields are `Value` because Python does not enforce the `int`,
`bool`, `str` annotations on the constructors (and indeed
`SynthBoolConst.synthesize` stores a bool inside a `SynthIntConst`). -/
inductive Node : Type where
  | synthArg (name : String) (argtype : Ty)
  | synthIntConst (val : Value)
  | synthIntAdd (left right : Node)
  | synthListLen (inner : Node)
  | synthBoolConst (val : Value)
  | synthBoolAnd (left right : Node)
  | synthStrConst (val : Value)
  | synthStrAdd (left right : Node)

/-- The evaluation environment: a Python dict from parameter name to
value (`none` = key absent). -/
def Env : Type := String → Option Value

/-- `evaluate(self, env)`, dispatched over the node classes.
`SynthArg` raises `KeyError` when its name is unbound; `SynthBoolAnd`
uses Python short-circuit `and` (returns the left value when it is
falsy, without needing the right one). -/
def evaluate : Node → Env → Except Err Value
  | Node.synthArg name _, env =>
    match env name with
    | none => Except.error (Err.keyError ("arg " ++ name ++ " not in env"))
    | some v => Except.ok v
  | Node.synthIntConst v, _ => Except.ok v
  | Node.synthIntAdd l r, env => do
    let a ← evaluate l env
    let b ← evaluate r env
    pyAdd a b
  | Node.synthListLen t, env => do
    let v ← evaluate t env
    pyLen v
  | Node.synthBoolConst v, _ => Except.ok v
  | Node.synthBoolAnd l r, env => do
    let a ← evaluate l env
    if truthy a then evaluate r env else Except.ok a
  | Node.synthStrConst v, _ => Except.ok v
  | Node.synthStrAdd l r, env => do
    let a ← evaluate l env
    let b ← evaluate r env
    pyAdd a b

/-- `__str__` of each node class: `SynthArg` prints its name, constants
print via Python `str` (strings additionally wrapped in double quotes),
operators print parenthesized infix / `len(...)`. -/
def render : Node → String
  | Node.synthArg name _ => name
  | Node.synthIntConst v => pyStr v
  | Node.synthIntAdd l r => "(" ++ render l ++ " + " ++ render r ++ ")"
  | Node.synthListLen t => "len(" ++ render t ++ ")"
  | Node.synthBoolConst v => pyStr v
  | Node.synthBoolAnd l r => "(" ++ render l ++ " and " ++ render r ++ ")"
  | Node.synthStrConst v => "\"" ++ pyStr v ++ "\""
  | Node.synthStrAdd l r => "(" ++ render l ++ " + " ++ render r ++ ")"

/-- The operator-pool entries for the Integer type: the classes that may
appear in `int_ops`. -/
inductive IntOp : Type where
  | synthIntConst
  | synthIntAdd
  | synthListLen
deriving DecidableEq, Repr

/-- The operator-pool entries for the Boolean type (`bool_ops`). -/
inductive BoolOp : Type where
  | synthBoolConst
  | synthBoolAnd
deriving DecidableEq, Repr

/-- The operator-pool entries for the String type (`str_ops`). -/
inductive StrOp : Type where
  | synthStrConst
  | synthStrAdd
deriving DecidableEq, Repr

/-- The parameters threaded unchanged through every `synthesize` call:
`input_args`, `output_type`, and the literal/operator pools. -/
structure Ctx : Type where
  input_args : List Arg
  output_type : Ty
  int_literals : List Int
  int_ops : List IntOp
  bool_literals : List Bool
  bool_ops : List BoolOp
  str_literals : List String
  str_ops : List StrOp

/-- The randomness oracle: the sequence of indices successive
`random.choice` calls will use (taken modulo the sequence length). -/
abbrev Oracle : Type := List Nat

/-- Consume one oracle entry (`0` once the oracle is spent). -/
def nextRand : Oracle → Nat × Oracle
  | [] => (0, [])
  | n :: rest => (n, rest)

/-- `random.choice(xs)`: raises `IndexError` on an empty sequence,
otherwise returns the element at the oracle's index mod the length. -/
def choose {α : Type} (r : Oracle) (xs : List α) : Except Err (α × Oracle) :=
  match xs with
  | [] => Except.error Err.indexError
  | x :: rest =>
    let p := nextRand r
    Except.ok ((x :: rest).getD (p.1 % (x :: rest).length) x, p.2)

/-- `SynthList.synthesize`: candidates are only the List-typed
parameters (the non-terminal list ops are commented out in the source);
the drawn `SynthArg` instance's `synthesize` returns the instance
itself. -/
def synthList (ctx : Ctx) (depth : Int) (r : Oracle) : Except Err (Node × Oracle) :=
  let list_args := ctx.input_args.filter (fun a => a.argtype == Ty.list)
  match choose r list_args with
  | Except.error e => Except.error e
  | Except.ok (a, r2) => Except.ok (Node.synthArg a.name a.argtype, r2)

/-- `SynthIntConst.synthesize`: raises `ValueError` when `int_literals`
is empty, otherwise wraps one drawn literal. -/
def synthIntConst (ctx : Ctx) (depth : Int) (r : Oracle) : Except Err (Node × Oracle) :=
  if ctx.int_literals.isEmpty then
    Except.error (Err.valueError "not enough int literals to use for synthesis")
  else
    match choose r ctx.int_literals with
    | Except.error e => Except.error e
    | Except.ok (v, r2) => Except.ok (Node.synthIntConst (Value.int v), r2)

/-- `SynthListLen.synthesize`: guards the depth, then synthesizes its
List child at `depth - 1`. -/
def synthListLen (ctx : Ctx) (depth : Int) (r : Oracle) : Except Err (Node × Oracle) :=
  if depth ≤ 1 then
    Except.error (Err.runtimeError "attempting to synthesize SynthListLen without enough depth")
  else
    match synthList ctx (depth - 1) r with
    | Except.error e => Except.error e
    | Except.ok (inner, r2) => Except.ok (Node.synthListLen inner, r2)

mutual

/-- `SynthInt.synthesize`: filters `int_ops` (the constant production
needs a non-empty literal pool; every other production needs
`depth > 1`), appends the Integer-typed parameters, draws one candidate
and dispatches to its `synthesize` at the same depth. -/
def synthInt (ctx : Ctx) (depth : Int) (r : Oracle) : Except Err (Node × Oracle) :=
  let int_args := ctx.input_args.filter (fun a => a.argtype == Ty.int)
  let valid_int_ops := ctx.int_ops.filter
    (fun op => (op == IntOp.synthIntConst && !ctx.int_literals.isEmpty)
            || (op != IntOp.synthIntConst && decide (1 < depth)))
  let class_choices : List (IntOp ⊕ Arg) := valid_int_ops.map Sum.inl ++ int_args.map Sum.inr
  match choose r class_choices with
  | Except.error e => Except.error e
  | Except.ok (Sum.inr a, r2) => Except.ok (Node.synthArg a.name a.argtype, r2)
  | Except.ok (Sum.inl IntOp.synthIntConst, r2) => synthIntConst ctx depth r2
  | Except.ok (Sum.inl IntOp.synthIntAdd, r2) => synthIntAdd ctx depth r2
  | Except.ok (Sum.inl IntOp.synthListLen, r2) => synthListLen ctx depth r2
termination_by 2 * depth.toNat + 1
decreasing_by
  all_goals simp_wf
  all_goals omega

/-- `SynthIntAdd.synthesize`: guards the depth, then synthesizes its two
Integer children left-to-right at `depth - 1`. -/
def synthIntAdd (ctx : Ctx) (depth : Int) (r : Oracle) : Except Err (Node × Oracle) :=
  if h : depth ≤ 1 then
    Except.error (Err.runtimeError "attempting to synthesize SynthIntAdd without enough depth")
  else
    match synthInt ctx (depth - 1) r with
    | Except.error e => Except.error e
    | Except.ok (left, r1) =>
      match synthInt ctx (depth - 1) r1 with
      | Except.error e => Except.error e
      | Except.ok (right, r2) => Except.ok (Node.synthIntAdd left right, r2)
termination_by 2 * depth.toNat
decreasing_by
  all_goals simp_wf
  all_goals omega

end

/-- `SynthBool.synthesize`: computes the Boolean candidates but then the
source line `class_choices: ... = valid_int_ops + int_args` refers to
names that are bound only inside `SynthInt.synthesize`, so Python raises
`NameError` before any candidate is drawn. -/
def synthBool (ctx : Ctx) (depth : Int) (r : Oracle) : Except Err (Node × Oracle) :=
  let bool_args := ctx.input_args.filter (fun a => a.argtype == Ty.bool)
  let valid_bool_ops := ctx.bool_ops.filter
    (fun op => op == BoolOp.synthBoolConst || decide (1 < depth))
  Except.error (Err.nameError "name valid_int_ops is not defined")

/-- `SynthBoolConst.synthesize`: raises `ValueError` when
`bool_literals` is empty (with the copy-pasted "int literals" message),
then wraps the drawn boolean in a `SynthIntConst` node — exactly as the
source does. -/
def synthBoolConst (ctx : Ctx) (depth : Int) (r : Oracle) : Except Err (Node × Oracle) :=
  if ctx.bool_literals.isEmpty then
    Except.error (Err.valueError "not enough int literals to use for synthesis")
  else
    match choose r ctx.bool_literals with
    | Except.error e => Except.error e
    | Except.ok (v, r2) => Except.ok (Node.synthIntConst (Value.bool v), r2)

/-- `SynthBoolAnd.synthesize`: guards the depth, then synthesizes its
two Boolean children left-to-right at `depth - 1`. -/
def synthBoolAnd (ctx : Ctx) (depth : Int) (r : Oracle) : Except Err (Node × Oracle) :=
  if depth ≤ 1 then
    Except.error (Err.runtimeError "attempting to synthesize SynthBoolAnd without enough depth")
  else
    match synthBool ctx (depth - 1) r with
    | Except.error e => Except.error e
    | Except.ok (left, r1) =>
      match synthBool ctx (depth - 1) r1 with
      | Except.error e => Except.error e
      | Except.ok (right, r2) => Except.ok (Node.synthBoolAnd left right, r2)

/-- `SynthStrConst.synthesize`: raises `ValueError` when `str_literals`
is empty, otherwise wraps one drawn literal. -/
def synthStrConst (ctx : Ctx) (depth : Int) (r : Oracle) : Except Err (Node × Oracle) :=
  if ctx.str_literals.isEmpty then
    Except.error (Err.valueError "no string literals to use for synthesis")
  else
    match choose r ctx.str_literals with
    | Except.error e => Except.error e
    | Except.ok (v, r2) => Except.ok (Node.synthStrConst (Value.str v), r2)

mutual

/-- `SynthStr.synthesize`: filters `str_ops` (constant production needs
a non-empty literal pool; others need `depth > 1`), appends the
String-typed parameters, draws one candidate and dispatches at the same
depth. -/
def synthStr (ctx : Ctx) (depth : Int) (r : Oracle) : Except Err (Node × Oracle) :=
  let str_args := ctx.input_args.filter (fun a => a.argtype == Ty.str)
  let valid_str_ops := ctx.str_ops.filter
    (fun op => (op == StrOp.synthStrConst && !ctx.str_literals.isEmpty)
            || (op != StrOp.synthStrConst && decide (1 < depth)))
  let class_choices : List (StrOp ⊕ Arg) := valid_str_ops.map Sum.inl ++ str_args.map Sum.inr
  match choose r class_choices with
  | Except.error e => Except.error e
  | Except.ok (Sum.inr a, r2) => Except.ok (Node.synthArg a.name a.argtype, r2)
  | Except.ok (Sum.inl StrOp.synthStrConst, r2) => synthStrConst ctx depth r2
  | Except.ok (Sum.inl StrOp.synthStrAdd, r2) => synthStrAdd ctx depth r2
termination_by 2 * depth.toNat + 1
decreasing_by
  all_goals simp_wf
  all_goals omega

/-- `SynthStrAdd.synthesize`: guards the depth, then synthesizes its two
String children left-to-right at `depth - 1`. -/
def synthStrAdd (ctx : Ctx) (depth : Int) (r : Oracle) : Except Err (Node × Oracle) :=
  if h : depth ≤ 1 then
    Except.error (Err.runtimeError "attempting to synthesize SynthStrAdd without enough depth")
  else
    match synthStr ctx (depth - 1) r with
    | Except.error e => Except.error e
    | Except.ok (left, r1) =>
      match synthStr ctx (depth - 1) r1 with
      | Except.error e => Except.error e
      | Except.ok (right, r2) => Except.ok (Node.synthStrAdd left right, r2)
termination_by 2 * depth.toNat
decreasing_by
  all_goals simp_wf
  all_goals omega

end

/-- Dispatch `output_type.synthesize(...)` over the four dispatcher
types. -/
def synthesizeType (ctx : Ctx) (t : Ty) (depth : Int) (r : Oracle) : Except Err (Node × Oracle) :=
  match t with
  | Ty.int => synthInt ctx depth r
  | Ty.bool => synthBool ctx depth r
  | Ty.str => synthStr ctx depth r
  | Ty.list => synthList ctx depth r

/-- The dict comprehension in `inner_func`: zip parameter names with the
positional arguments (later duplicates overwrite earlier ones, as in a
Python dict). -/
def makeEnv (input_args : List Arg) (args : List Value) : Env :=
  (input_args.zip args).foldl
    (fun env p => fun x => if x = p.1.name then some p.2 else env x)
    (fun _ => none)

/-- `inner_func` from `make_func`: checks the arity (raising
`ValueError` on mismatch), builds the environment and evaluates the
tree. -/
def innerFunc (input_args : List Arg) (expr : Node) (args : List Value) : Except Err Value :=
  if input_args.length ≠ args.length then
    Except.error (Err.valueError "too many or not enough arguments")
  else
    evaluate expr (makeEnv input_args args)

/-- `make_func`: synthesize a tree for `output_type`, then close over it
with `inner_func` (the `print` of the rendered lambda is a console side
effect and not part of the returned function). -/
def make_func (ctx : Ctx) (depth : Int) (r : Oracle) :
    Except Err (List Value → Except Err Value) :=
  match synthesizeType ctx ctx.output_type depth r with
  | Except.error e => Except.error e
  | Except.ok (expr, _) => Except.ok (innerFunc ctx.input_args expr)

/-- Maximum chain of nested non-terminal nodes from the root to any
leaf (terminal nodes — constants and parameter references — count 0). -/
def ndepth : Node → Nat
  | Node.synthArg _ _ => 0
  | Node.synthIntConst _ => 0
  | Node.synthBoolConst _ => 0
  | Node.synthStrConst _ => 0
  | Node.synthIntAdd l r => 1 + max (ndepth l) (ndepth r)
  | Node.synthBoolAnd l r => 1 + max (ndepth l) (ndepth r)
  | Node.synthStrAdd l r => 1 + max (ndepth l) (ndepth r)
  | Node.synthListLen t => 1 + ndepth t

/-- The spec's `SynthesisExhausted` condition: with an empty candidate
set, `random.choice` raises `IndexError`. -/
def SynthesisExhausted : Err := Err.indexError

/-- The spec's `UnboundParameter` condition: `SynthArg.evaluate` raises
`KeyError` with this message when its name is absent from the
environment. -/
def UnboundParameter (name : String) : Err :=
  Err.keyError ("arg " ++ name ++ " not in env")

/-- The spec's `ArityMismatch` condition: `inner_func` raises
`ValueError` with this message when the argument count is wrong. -/
def ArityMismatch : Err := Err.valueError "too many or not enough arguments"

/-- Step-indexed mirror of `evaluate`: `none` means the recursion did
not bottom out within `fuel` nested calls.  Used to state that
evaluation terminates. -/
def evaluateF : Nat → Node → Env → Option (Except Err Value)
  | 0, _, _ => none
  | _ + 1, Node.synthArg name _, env =>
    match env name with
    | none => some (Except.error (Err.keyError ("arg " ++ name ++ " not in env")))
    | some v => some (Except.ok v)
  | _ + 1, Node.synthIntConst v, _ => some (Except.ok v)
  | _ + 1, Node.synthBoolConst v, _ => some (Except.ok v)
  | _ + 1, Node.synthStrConst v, _ => some (Except.ok v)
  | fuel + 1, Node.synthIntAdd l r, env =>
    match evaluateF fuel l env with
    | none => none
    | some (Except.error e) => some (Except.error e)
    | some (Except.ok a) =>
      match evaluateF fuel r env with
      | none => none
      | some (Except.error e) => some (Except.error e)
      | some (Except.ok b) => some (pyAdd a b)
  | fuel + 1, Node.synthListLen t, env =>
    match evaluateF fuel t env with
    | none => none
    | some (Except.error e) => some (Except.error e)
    | some (Except.ok v) => some (pyLen v)
  | fuel + 1, Node.synthBoolAnd l r, env =>
    match evaluateF fuel l env with
    | none => none
    | some (Except.error e) => some (Except.error e)
    | some (Except.ok a) =>
      if truthy a then evaluateF fuel r env else some (Except.ok a)
  | fuel + 1, Node.synthStrAdd l r, env =>
    match evaluateF fuel l env with
    | none => none
    | some (Except.error e) => some (Except.error e)
    | some (Except.ok a) =>
      match evaluateF fuel r env with
      | none => none
      | some (Except.error e) => some (Except.error e)
      | some (Except.ok b) => some (pyAdd a b)

/-- Step-indexed mirror of `synthList` (no recursive calls in its
body). -/
def synthListF : Nat → Ctx → Int → Oracle → Option (Except Err (Node × Oracle))
  | 0, _, _, _ => none
  | _ + 1, ctx, _, r =>
    let list_args := ctx.input_args.filter (fun a => a.argtype == Ty.list)
    match choose r list_args with
    | Except.error e => some (Except.error e)
    | Except.ok (a, r2) => some (Except.ok (Node.synthArg a.name a.argtype, r2))

/-- Step-indexed mirror of `synthIntConst`. -/
def synthIntConstF : Nat → Ctx → Int → Oracle → Option (Except Err (Node × Oracle))
  | 0, _, _, _ => none
  | _ + 1, ctx, _, r =>
    if ctx.int_literals.isEmpty then
      some (Except.error (Err.valueError "not enough int literals to use for synthesis"))
    else
      match choose r ctx.int_literals with
      | Except.error e => some (Except.error e)
      | Except.ok (v, r2) => some (Except.ok (Node.synthIntConst (Value.int v), r2))

/-- Step-indexed mirror of `synthListLen`. -/
def synthListLenF : Nat → Ctx → Int → Oracle → Option (Except Err (Node × Oracle))
  | 0, _, _, _ => none
  | fuel + 1, ctx, depth, r =>
    if depth ≤ 1 then
      some (Except.error (Err.runtimeError "attempting to synthesize SynthListLen without enough depth"))
    else
      match synthListF fuel ctx (depth - 1) r with
      | none => none
      | some (Except.error e) => some (Except.error e)
      | some (Except.ok (inner, r2)) => some (Except.ok (Node.synthListLen inner, r2))

mutual

/-- Step-indexed mirror of `synthInt`. -/
def synthIntF : Nat → Ctx → Int → Oracle → Option (Except Err (Node × Oracle))
  | 0, _, _, _ => none
  | fuel + 1, ctx, depth, r =>
    let int_args := ctx.input_args.filter (fun a => a.argtype == Ty.int)
    let valid_int_ops := ctx.int_ops.filter
      (fun op => (op == IntOp.synthIntConst && !ctx.int_literals.isEmpty)
              || (op != IntOp.synthIntConst && decide (1 < depth)))
    let class_choices : List (IntOp ⊕ Arg) := valid_int_ops.map Sum.inl ++ int_args.map Sum.inr
    match choose r class_choices with
    | Except.error e => some (Except.error e)
    | Except.ok (Sum.inr a, r2) => some (Except.ok (Node.synthArg a.name a.argtype, r2))
    | Except.ok (Sum.inl IntOp.synthIntConst, r2) => synthIntConstF fuel ctx depth r2
    | Except.ok (Sum.inl IntOp.synthIntAdd, r2) => synthIntAddF fuel ctx depth r2
    | Except.ok (Sum.inl IntOp.synthListLen, r2) => synthListLenF fuel ctx depth r2

/-- Step-indexed mirror of `synthIntAdd`. -/
def synthIntAddF : Nat → Ctx → Int → Oracle → Option (Except Err (Node × Oracle))
  | 0, _, _, _ => none
  | fuel + 1, ctx, depth, r =>
    if depth ≤ 1 then
      some (Except.error (Err.runtimeError "attempting to synthesize SynthIntAdd without enough depth"))
    else
      match synthIntF fuel ctx (depth - 1) r with
      | none => none
      | some (Except.error e) => some (Except.error e)
      | some (Except.ok (left, r1)) =>
        match synthIntF fuel ctx (depth - 1) r1 with
        | none => none
        | some (Except.error e) => some (Except.error e)
        | some (Except.ok (right, r2)) => some (Except.ok (Node.synthIntAdd left right, r2))

end

/-- Step-indexed mirror of `synthBool` (the `NameError` is raised before
any recursive call). -/
def synthBoolF : Nat → Ctx → Int → Oracle → Option (Except Err (Node × Oracle))
  | 0, _, _, _ => none
  | _ + 1, _, _, _ =>
    some (Except.error (Err.nameError "name valid_int_ops is not defined"))

/-- Step-indexed mirror of `synthStrConst`. -/
def synthStrConstF : Nat → Ctx → Int → Oracle → Option (Except Err (Node × Oracle))
  | 0, _, _, _ => none
  | _ + 1, ctx, _, r =>
    if ctx.str_literals.isEmpty then
      some (Except.error (Err.valueError "no string literals to use for synthesis"))
    else
      match choose r ctx.str_literals with
      | Except.error e => some (Except.error e)
      | Except.ok (v, r2) => some (Except.ok (Node.synthStrConst (Value.str v), r2))

mutual

/-- Step-indexed mirror of `synthStr`. -/
def synthStrF : Nat → Ctx → Int → Oracle → Option (Except Err (Node × Oracle))
  | 0, _, _, _ => none
  | fuel + 1, ctx, depth, r =>
    let str_args := ctx.input_args.filter (fun a => a.argtype == Ty.str)
    let valid_str_ops := ctx.str_ops.filter
      (fun op => (op == StrOp.synthStrConst && !ctx.str_literals.isEmpty)
              || (op != StrOp.synthStrConst && decide (1 < depth)))
    let class_choices : List (StrOp ⊕ Arg) := valid_str_ops.map Sum.inl ++ str_args.map Sum.inr
    match choose r class_choices with
    | Except.error e => some (Except.error e)
    | Except.ok (Sum.inr a, r2) => some (Except.ok (Node.synthArg a.name a.argtype, r2))
    | Except.ok (Sum.inl StrOp.synthStrConst, r2) => synthStrConstF fuel ctx depth r2
    | Except.ok (Sum.inl StrOp.synthStrAdd, r2) => synthStrAddF fuel ctx depth r2

/-- Step-indexed mirror of `synthStrAdd`. -/
def synthStrAddF : Nat → Ctx → Int → Oracle → Option (Except Err (Node × Oracle))
  | 0, _, _, _ => none
  | fuel + 1, ctx, depth, r =>
    if depth ≤ 1 then
      some (Except.error (Err.runtimeError "attempting to synthesize SynthStrAdd without enough depth"))
    else
      match synthStrF fuel ctx (depth - 1) r with
      | none => none
      | some (Except.error e) => some (Except.error e)
      | some (Except.ok (left, r1)) =>
        match synthStrF fuel ctx (depth - 1) r1 with
        | none => none
        | some (Except.error e) => some (Except.error e)
        | some (Except.ok (right, r2)) => some (Except.ok (Node.synthStrAdd left right, r2))

end

/-- Step-indexed mirror of `synthesizeType`. -/
def synthesizeTypeF (fuel : Nat) (ctx : Ctx) (t : Ty) (depth : Int) (r : Oracle) :
    Option (Except Err (Node × Oracle)) :=
  match t with
  | Ty.int => synthIntF fuel ctx depth r
  | Ty.bool => synthBoolF fuel ctx depth r
  | Ty.str => synthStrF fuel ctx depth r
  | Ty.list => synthListF fuel ctx depth r

/-- A populated configuration (used to instantiate universally
quantified theorems at concrete inputs). -/
def exCtx : Ctx :=
  { input_args := []
    output_type := Ty.int
    int_literals := [0, 1, 2]
    int_ops := [IntOp.synthIntConst]
    bool_literals := [true, false]
    bool_ops := [BoolOp.synthBoolConst, BoolOp.synthBoolAnd]
    str_literals := ["hello"]
    str_ops := [StrOp.synthStrConst] }

/-- The configuration of the spec's exhaustion scenario: no int
literals, only the constant production, no Integer-typed parameter. -/
def exhaustedCtx : Ctx :=
  { input_args := []
    output_type := Ty.int
    int_literals := []
    int_ops := [IntOp.synthIntConst]
    bool_literals := []
    bool_ops := []
    str_literals := []
    str_ops := [] }

theorem bind_ok_eq {α β : Type} (v : α) (f : α → Except Err β) :
    (Except.ok v >>= f) = f v := rfl

theorem choose_ok_mem {α : Type} {r : Oracle} {xs : List α} {x : α} {r2 : Oracle}
    (h : choose r xs = Except.ok (x, r2)) : x ∈ xs := by
  match xs with
  | [] => simp [choose] at h
  | y :: ys =>
    simp only [choose, Except.ok.injEq, Prod.mk.injEq] at h
    obtain ⟨h1, h2⟩ := h
    by_cases hlt : (nextRand r).1 % (y :: ys).length < (y :: ys).length
    · rw [List.getD_eq_getElem _ _ hlt] at h1
      rw [← h1]
      exact List.getElem_mem hlt
    · rw [List.getD_eq_default _ _ (Nat.le_of_not_lt hlt)] at h1
      rw [← h1]
      exact List.mem_cons_self y ys

/-- Claim C1: the Boolean dispatcher never draws from its own computed
Boolean candidates; the source line `class_choices = valid_int_ops + int_args`
names locals of `SynthInt.synthesize` that are unbound here, so every call
raises `NameError` instead of selecting among the Boolean type's candidates. -/
theorem synthBool_raises_NameError (ctx : Ctx) (depth : Int) (r : Oracle) :
    synthBool ctx depth r =
      Except.error (Err.nameError "name valid_int_ops is not defined") := rfl

/-- Claim C2: at the failing input (non-empty `bool_literals`), the
Boolean-constant terminal builds a `SynthIntConst` node (declared type
Integer) holding the boolean, whose evaluation yields that boolean. -/
theorem synthBoolConst_builds_IntConst :
    synthBoolConst exCtx 1 [] = Except.ok (Node.synthIntConst (Value.bool true), []) ∧
    evaluate (Node.synthIntConst (Value.bool true)) (fun _ => none) =
      Except.ok (Value.bool true) := ⟨rfl, rfl⟩

/-- Claim C6 counterexample: the tree `(False and x)` contains a
parameter reference named `x`, yet against the empty environment its
evaluation short-circuits and returns `False` instead of raising
`UnboundParameter`. -/
theorem tree_with_unbound_ref_can_evaluate :
    evaluate (Node.synthBoolAnd (Node.synthBoolConst (Value.bool false))
        (Node.synthArg "x" Ty.int)) (fun _ => none) =
      Except.ok (Value.bool false) ∧
    (fun _ => none : Env) "x" = none := ⟨rfl, rfl⟩

/-- Claim C6 (amended): evaluating a parameter-reference node itself
against an environment lacking its name raises `UnboundParameter`
(`KeyError`); when the name is bound, evaluation returns the
environment's value. -/
theorem paramRef_evaluate (name : String) (ty : Ty) (env : Env) :
    (env name = none →
      evaluate (Node.synthArg name ty) env = Except.error (UnboundParameter name)) ∧
    (∀ v, env name = some v → evaluate (Node.synthArg name ty) env = Except.ok v) := by
  constructor
  · intro h
    simp [evaluate, h, UnboundParameter]
  · intro v h
    simp [evaluate, h]

theorem paramRef_evaluate_witness :
    evaluate (Node.synthArg "x" Ty.int) (fun _ => none) =
      Except.error (UnboundParameter "x") ∧
    evaluate (Node.synthArg "y" Ty.int) (fun z => if z = "y" then some (Value.int 3) else none) =
      Except.ok (Value.int 3) :=
  ⟨(paramRef_evaluate "x" Ty.int (fun _ => none)).1 rfl,
   (paramRef_evaluate "y" Ty.int (fun z => if z = "y" then some (Value.int 3) else none)).2
     (Value.int 3) rfl⟩

/-- Claim C8 counterexample: the Boolean constant holding `true` renders
as `str(True)`, the string `"True"`, not the claimed `"true"`. -/
theorem boolConst_renders_capitalized :
    render (Node.synthBoolConst (Value.bool true)) ≠ "true" ∧
    render (Node.synthBoolConst (Value.bool true)) = "True" := by
  constructor
  · decide
  · rfl

/-- Claim C8 (amended): rendering is a pure function of the tree
(deterministic by construction); integer constants render bare, string
constants render wrapped in double quotes, and the Boolean constant
holding `true` renders as `"True"` (Python `str` capitalization). -/
theorem render_constants :
    (∀ n : Int, render (Node.synthIntConst (Value.int n)) = toString n) ∧
    (∀ s : String, render (Node.synthStrConst (Value.str s)) = "\"" ++ s ++ "\"") ∧
    render (Node.synthBoolConst (Value.bool true)) = "True" := by
  refine ⟨fun n => rfl, fun s => rfl, rfl⟩

/-- Claim C10: Boolean AND evaluates with Python short-circuit `and`
semantics: a falsy left value is returned as the result without the
right child's value being needed; a truthy left value makes the right
child's result the result; `true and false` evaluates to `false`. -/
theorem boolAnd_short_circuit :
    (∀ l r : Node, ∀ env v, evaluate l env = Except.ok v → truthy v = false →
      evaluate (Node.synthBoolAnd l r) env = Except.ok v) ∧
    (∀ l r : Node, ∀ env v, evaluate l env = Except.ok v → truthy v = true →
      evaluate (Node.synthBoolAnd l r) env = evaluate r env) ∧
    (∀ env, evaluate (Node.synthBoolAnd (Node.synthBoolConst (Value.bool true))
        (Node.synthBoolConst (Value.bool false))) env = Except.ok (Value.bool false)) := by
  refine ⟨?_, ?_, fun env => rfl⟩
  · intro l r env v hl hv
    simp [evaluate, hl, hv, bind_ok_eq]
  · intro l r env v hl hv
    simp [evaluate, hl, hv, bind_ok_eq]

theorem boolAnd_short_circuit_witness :
    evaluate (Node.synthBoolAnd (Node.synthBoolConst (Value.bool false))
        (Node.synthArg "x" Ty.int)) (fun _ => none) = Except.ok (Value.bool false) ∧
    evaluate (Node.synthBoolAnd (Node.synthBoolConst (Value.bool true))
        (Node.synthBoolConst (Value.bool false))) (fun _ => none) =
      Except.ok (Value.bool false) :=
  ⟨boolAnd_short_circuit.1 (Node.synthBoolConst (Value.bool false))
      (Node.synthArg "x" Ty.int) (fun _ => none) (Value.bool false) rfl rfl,
   boolAnd_short_circuit.2.2 (fun _ => none)⟩

/-- Claim C3: with an empty int-literal pool, only the constant
production configured, and no Integer-typed parameter, the Integer
candidate set is empty and synthesis fails with `SynthesisExhausted`
(the `IndexError` from `random.choice` on the empty candidate list)
at any depth. -/
theorem synthInt_exhausted (ctx : Ctx) (d : Int) (r : Oracle)
    (h1 : ctx.int_literals = []) (h2 : ctx.int_ops = [IntOp.synthIntConst])
    (h3 : ∀ a ∈ ctx.input_args, a.argtype ≠ Ty.int) :
    synthInt ctx d r = Except.error SynthesisExhausted := by
  have hargs : ctx.input_args.filter (fun a => a.argtype == Ty.int) = [] := by
    rw [List.filter_eq_nil_iff]
    intro a ha
    simpa using h3 a ha
  rw [synthInt]
  simp [hargs, h1, h2, choose, SynthesisExhausted]

theorem synthInt_exhausted_witness :
    synthInt exhaustedCtx 5 [] = Except.error SynthesisExhausted :=
  synthInt_exhausted exhaustedCtx 5 [] rfl rfl (by intro a ha; simp [exhaustedCtx] at ha)

/-- Claim C9: each constant terminal, when it succeeds, returns a
constant node storing a value drawn from its own literal pool, and
evaluating that node in any environment returns exactly the stored
value.  (The Boolean terminal stores its drawn boolean inside a
`SynthIntConst` node, and the membership and evaluation facts hold for
it as well.) -/
theorem const_synthesis_from_pool (ctx : Ctx) (d : Int) (r : Oracle) :
    (∀ n r2, synthIntConst ctx d r = Except.ok (n, r2) →
      ∃ v, v ∈ ctx.int_literals ∧ n = Node.synthIntConst (Value.int v) ∧
        ∀ env, evaluate n env = Except.ok (Value.int v)) ∧
    (∀ n r2, synthStrConst ctx d r = Except.ok (n, r2) →
      ∃ v, v ∈ ctx.str_literals ∧ n = Node.synthStrConst (Value.str v) ∧
        ∀ env, evaluate n env = Except.ok (Value.str v)) ∧
    (∀ n r2, synthBoolConst ctx d r = Except.ok (n, r2) →
      ∃ v, v ∈ ctx.bool_literals ∧ n = Node.synthIntConst (Value.bool v) ∧
        ∀ env, evaluate n env = Except.ok (Value.bool v)) := by
  refine ⟨?_, ?_, ?_⟩ <;> intro n r2 h
  · rw [synthIntConst] at h
    split at h
    · exact absurd h (by simp)
    · cases hc : choose r ctx.int_literals with
      | error e => rw [hc] at h; exact absurd h (by simp)
      | ok p =>
        rw [hc] at h
        simp only [Except.ok.injEq, Prod.mk.injEq] at h
        obtain ⟨hn, hr⟩ := h
        exact ⟨p.1, choose_ok_mem hc, hn.symm, fun env => hn ▸ rfl⟩
  · rw [synthStrConst] at h
    split at h
    · exact absurd h (by simp)
    · cases hc : choose r ctx.str_literals with
      | error e => rw [hc] at h; exact absurd h (by simp)
      | ok p =>
        rw [hc] at h
        simp only [Except.ok.injEq, Prod.mk.injEq] at h
        obtain ⟨hn, hr⟩ := h
        exact ⟨p.1, choose_ok_mem hc, hn.symm, fun env => hn ▸ rfl⟩
  · rw [synthBoolConst] at h
    split at h
    · exact absurd h (by simp)
    · cases hc : choose r ctx.bool_literals with
      | error e => rw [hc] at h; exact absurd h (by simp)
      | ok p =>
        rw [hc] at h
        simp only [Except.ok.injEq, Prod.mk.injEq] at h
        obtain ⟨hn, hr⟩ := h
        exact ⟨p.1, choose_ok_mem hc, hn.symm, fun env => hn ▸ rfl⟩

theorem const_synthesis_from_pool_witness :
    (∃ v, v ∈ exCtx.int_literals ∧
      Node.synthIntConst (Value.int 0) = Node.synthIntConst (Value.int v) ∧
      ∀ env, evaluate (Node.synthIntConst (Value.int 0)) env = Except.ok (Value.int v)) ∧
    (∃ v, v ∈ exCtx.bool_literals ∧
      Node.synthIntConst (Value.bool true) = Node.synthIntConst (Value.bool v) ∧
      ∀ env, evaluate (Node.synthIntConst (Value.bool true)) env = Except.ok (Value.bool v)) :=
  ⟨(const_synthesis_from_pool exCtx 1 []).1 (Node.synthIntConst (Value.int 0)) [] rfl,
   (const_synthesis_from_pool exCtx 1 []).2.2 (Node.synthIntConst (Value.bool true)) [] rfl⟩

theorem foldl_env_skip (pairs : List (Arg × Value)) (e0 : Env) (x : String)
    (h : ∀ q ∈ pairs, q.1.name ≠ x) :
    pairs.foldl (fun env p => fun y => if y = p.1.name then some p.2 else env y) e0 x = e0 x := by
  induction pairs generalizing e0 with
  | nil => rfl
  | cons q qs ih =>
    rw [List.foldl_cons, ih _ (fun p hp => h p (List.mem_cons_of_mem _ hp))]
    exact if_neg (fun hx => h q (List.mem_cons_self _ _) hx.symm)

theorem foldl_env_get (ps : List Arg) (vs : List Value) (e0 : Env)
    (hnd : (ps.map Arg.name).Nodup) (i : Nat) (h : i < ps.length) (h2 : i < vs.length) :
    (ps.zip vs).foldl (fun env p => fun y => if y = p.1.name then some p.2 else env y) e0
        ((ps.get ⟨i, h⟩).name) = some (vs.get ⟨i, h2⟩) := by
  induction ps generalizing vs e0 i with
  | nil => exact absurd h (by simp)
  | cons p ps ih =>
    match vs with
    | [] => exact absurd h2 (by simp)
    | v :: vs =>
      rw [List.zip_cons_cons, List.foldl_cons]
      match i with
      | 0 =>
        simp only [List.get]
        rw [foldl_env_skip]
        · simp
        · intro q hq hqname
          have hq1 : q.1 ∈ ps := (List.of_mem_zip hq).1
          have : p.name ∈ ps.map Arg.name := by
            rw [← hqname]
            exact List.mem_map_of_mem _ hq1
          simp only [List.map_cons, List.nodup_cons] at hnd
          exact hnd.1 this
      | i + 1 =>
        simp only [List.map_cons, List.nodup_cons] at hnd
        exact ih vs _ hnd.2 i (Nat.lt_of_succ_lt_succ h) (Nat.lt_of_succ_lt_succ h2)

/-- Claim C7: invoking the compiled function with the wrong number of
positional arguments fails with `ArityMismatch`; with exactly the
declared count it evaluates the tree in the environment built from the
parameter/argument zip, and (for distinct parameter names) that
environment maps the i-th parameter name to the i-th argument. -/
theorem innerFunc_arity (ps : List Arg) (expr : Node) (args : List Value) :
    (ps.length ≠ args.length →
      innerFunc ps expr args = Except.error ArityMismatch) ∧
    (ps.length = args.length →
      innerFunc ps expr args = evaluate expr (makeEnv ps args) ∧
      ((ps.map Arg.name).Nodup → ∀ i (h : i < ps.length) (h2 : i < args.length),
        makeEnv ps args ((ps.get ⟨i, h⟩).name) = some (args.get ⟨i, h2⟩))) := by
  constructor
  · intro h
    rw [innerFunc, if_pos h]
    rfl
  · intro h
    refine ⟨by rw [innerFunc, if_neg (by omega)], ?_⟩
    intro hnd i hi hi2
    exact foldl_env_get ps args _ hnd i hi hi2

theorem innerFunc_arity_witness :
    innerFunc [⟨"x", Ty.int⟩, ⟨"y", Ty.int⟩] (Node.synthArg "y" Ty.int) [Value.int 5] =
      Except.error ArityMismatch ∧
    innerFunc [⟨"x", Ty.int⟩, ⟨"y", Ty.int⟩] (Node.synthArg "y" Ty.int)
        [Value.int 5, Value.int 7] =
      evaluate (Node.synthArg "y" Ty.int)
        (makeEnv [⟨"x", Ty.int⟩, ⟨"y", Ty.int⟩] [Value.int 5, Value.int 7]) ∧
    makeEnv [⟨"x", Ty.int⟩, ⟨"y", Ty.int⟩] [Value.int 5, Value.int 7] "y" =
      some (Value.int 7) :=
  ⟨(innerFunc_arity [⟨"x", Ty.int⟩, ⟨"y", Ty.int⟩] (Node.synthArg "y" Ty.int)
      [Value.int 5]).1 (by decide),
   ((innerFunc_arity [⟨"x", Ty.int⟩, ⟨"y", Ty.int⟩] (Node.synthArg "y" Ty.int)
      [Value.int 5, Value.int 7]).2 rfl).1,
   ((innerFunc_arity [⟨"x", Ty.int⟩, ⟨"y", Ty.int⟩] (Node.synthArg "y" Ty.int)
      [Value.int 5, Value.int 7]).2 rfl).2 (by simp) 1 (by decide) (by decide)⟩

theorem synthList_ndepth {ctx : Ctx} {d : Int} {r : Oracle} {n : Node} {r2 : Oracle}
    (h : synthList ctx d r = Except.ok (n, r2)) : ndepth n = 0 := by
  rw [synthList] at h
  split at h
  · exact absurd h (by simp)
  · simp only [Except.ok.injEq, Prod.mk.injEq] at h
    rw [← h.1]
    rfl

theorem synthIntConst_ndepth {ctx : Ctx} {d : Int} {r : Oracle} {n : Node} {r2 : Oracle}
    (h : synthIntConst ctx d r = Except.ok (n, r2)) : ndepth n = 0 := by
  rw [synthIntConst] at h
  split at h
  · exact absurd h (by simp)
  · split at h
    · exact absurd h (by simp)
    · simp only [Except.ok.injEq, Prod.mk.injEq] at h
      rw [← h.1]
      rfl

theorem synthStrConst_ndepth {ctx : Ctx} {d : Int} {r : Oracle} {n : Node} {r2 : Oracle}
    (h : synthStrConst ctx d r = Except.ok (n, r2)) : ndepth n = 0 := by
  rw [synthStrConst] at h
  split at h
  · exact absurd h (by simp)
  · split at h
    · exact absurd h (by simp)
    · simp only [Except.ok.injEq, Prod.mk.injEq] at h
      rw [← h.1]
      rfl

theorem synthListLen_ndepth {ctx : Ctx} {d : Int} {r : Oracle} {n : Node} {r2 : Oracle}
    (h : synthListLen ctx d r = Except.ok (n, r2)) : ndepth n ≤ d.toNat := by
  rw [synthListLen] at h
  split at h
  · exact absurd h (by simp)
  · rename_i hgt
    split at h
    · exact absurd h (by simp)
    · rename_i inner r2x hL
      simp only [Except.ok.injEq, Prod.mk.injEq] at h
      rw [← h.1]
      have h0 : ndepth inner = 0 := synthList_ndepth hL
      simp only [ndepth, h0]
      omega

theorem synth_ndepth_main : ∀ k : Nat, ∀ d : Int, d.toNat ≤ k →
    (∀ ctx r n r2, synthIntAdd ctx d r = Except.ok (n, r2) → ndepth n ≤ d.toNat) ∧
    (∀ ctx r n r2, synthInt ctx d r = Except.ok (n, r2) → ndepth n ≤ d.toNat) ∧
    (∀ ctx r n r2, synthStrAdd ctx d r = Except.ok (n, r2) → ndepth n ≤ d.toNat) ∧
    (∀ ctx r n r2, synthStr ctx d r = Except.ok (n, r2) → ndepth n ≤ d.toNat) := by
  intro k
  induction k using Nat.strong_induction_on with
  | _ k ih =>
    intro d hd
    have hAdd : ∀ ctx r n r2, synthIntAdd ctx d r = Except.ok (n, r2) → ndepth n ≤ d.toNat := by
      intro ctx r n r2 h
      rw [synthIntAdd] at h
      split at h
      · exact absurd h (by simp)
      · rename_i hgt
        split at h
        · exact absurd h (by simp)
        · rename_i left r1 hL
          split at h
          · exact absurd h (by simp)
          · rename_i right r2x hR
            simp only [Except.ok.injEq, Prod.mk.injEq] at h
            have hk : (d - 1).toNat < k := by omega
            have hle : ndepth left ≤ (d - 1).toNat :=
              (ih _ hk (d - 1) (le_refl _)).2.1 ctx r left r1 hL
            have hri : ndepth right ≤ (d - 1).toNat :=
              (ih _ hk (d - 1) (le_refl _)).2.1 ctx r1 right r2x hR
            rw [← h.1]
            simp only [ndepth]
            omega
    have hStrAdd : ∀ ctx r n r2, synthStrAdd ctx d r = Except.ok (n, r2) → ndepth n ≤ d.toNat := by
      intro ctx r n r2 h
      rw [synthStrAdd] at h
      split at h
      · exact absurd h (by simp)
      · rename_i hgt
        split at h
        · exact absurd h (by simp)
        · rename_i left r1 hL
          split at h
          · exact absurd h (by simp)
          · rename_i right r2x hR
            simp only [Except.ok.injEq, Prod.mk.injEq] at h
            have hk : (d - 1).toNat < k := by omega
            have hle : ndepth left ≤ (d - 1).toNat :=
              (ih _ hk (d - 1) (le_refl _)).2.2.2 ctx r left r1 hL
            have hri : ndepth right ≤ (d - 1).toNat :=
              (ih _ hk (d - 1) (le_refl _)).2.2.2 ctx r1 right r2x hR
            rw [← h.1]
            simp only [ndepth]
            omega
    refine ⟨hAdd, ?_, hStrAdd, ?_⟩
    · intro ctx r n r2 h
      simp only [synthInt] at h
      split at h
      · exact absurd h (by simp)
      · simp only [Except.ok.injEq, Prod.mk.injEq] at h
        rw [← h.1]
        exact Nat.zero_le _
      · exact (synthIntConst_ndepth h) ▸ Nat.zero_le _
      · rename_i r2x heq
        exact hAdd ctx r2x n r2 h
      · exact synthListLen_ndepth h
    · intro ctx r n r2 h
      simp only [synthStr] at h
      split at h
      · exact absurd h (by simp)
      · simp only [Except.ok.injEq, Prod.mk.injEq] at h
        rw [← h.1]
        exact Nat.zero_le _
      · exact (synthStrConst_ndepth h) ▸ Nat.zero_le _
      · rename_i r2x heq
        exact hStrAdd ctx r2x n r2 h

/-- Claim C4: for any synthesis call with non-negative depth budget `d`
(the spec requires a positive depth), a successfully returned tree has
maximum non-terminal nesting depth at most `d`: non-terminals are
candidates only when `d > 1`, children are synthesized at `d - 1`, and
at `d ≤ 1` only terminals remain eligible. -/
theorem synthesize_depth_bound (ctx : Ctx) (t : Ty) (d : Int) (r : Oracle)
    (hd : 0 ≤ d) (n : Node) (r2 : Oracle)
    (h : synthesizeType ctx t d r = Except.ok (n, r2)) :
    (ndepth n : Int) ≤ d := by
  have htn : d.toNat = d := Int.toNat_of_nonneg hd
  match t with
  | Ty.int =>
    have := (synth_ndepth_main d.toNat d (le_refl _)).2.1 ctx r n r2 h
    omega
  | Ty.bool =>
    rw [synthesizeType, synthBool] at h
    exact absurd h (by simp)
  | Ty.str =>
    have := (synth_ndepth_main d.toNat d (le_refl _)).2.2.2 ctx r n r2 h
    omega
  | Ty.list =>
    have h0 : ndepth n = 0 :=
      synthList_ndepth (show synthList ctx d r = Except.ok (n, r2) from h)
    omega

theorem synthesize_depth_bound_witness :
    synthesizeType exCtx Ty.int 1 [] =
      Except.ok (Node.synthIntConst (Value.int 0), []) ∧
    (ndepth (Node.synthIntConst (Value.int 0)) : Int) ≤ 1 :=
  ⟨by simp [synthesizeType, synthInt, synthIntConst, choose, nextRand, exCtx],
   synthesize_depth_bound exCtx Ty.int 1 [] (by decide)
     (Node.synthIntConst (Value.int 0)) []
     (by simp [synthesizeType, synthInt, synthIntConst, choose, nextRand, exCtx])⟩

theorem synthListF_eq (fuel : Nat) (ctx : Ctx) (d : Int) (r : Oracle) (h : 1 ≤ fuel) :
    synthListF fuel ctx d r = some (synthList ctx d r) := by
  match fuel with
  | 0 => exact absurd h (by omega)
  | f + 1 =>
    simp only [synthListF, synthList]
    cases hc : choose r (ctx.input_args.filter (fun a => a.argtype == Ty.list)) with
    | error e => rfl
    | ok p => obtain ⟨a, r2⟩ := p; rfl

theorem synthIntConstF_eq (fuel : Nat) (ctx : Ctx) (d : Int) (r : Oracle) (h : 1 ≤ fuel) :
    synthIntConstF fuel ctx d r = some (synthIntConst ctx d r) := by
  match fuel with
  | 0 => exact absurd h (by omega)
  | f + 1 =>
    simp only [synthIntConstF, synthIntConst]
    by_cases he : ctx.int_literals.isEmpty
    · rw [if_pos he, if_pos he]
    · rw [if_neg he, if_neg he]
      cases hc : choose r ctx.int_literals with
      | error e => rfl
      | ok p => obtain ⟨v, r2⟩ := p; rfl

theorem synthStrConstF_eq (fuel : Nat) (ctx : Ctx) (d : Int) (r : Oracle) (h : 1 ≤ fuel) :
    synthStrConstF fuel ctx d r = some (synthStrConst ctx d r) := by
  match fuel with
  | 0 => exact absurd h (by omega)
  | f + 1 =>
    simp only [synthStrConstF, synthStrConst]
    by_cases he : ctx.str_literals.isEmpty
    · rw [if_pos he, if_pos he]
    · rw [if_neg he, if_neg he]
      cases hc : choose r ctx.str_literals with
      | error e => rfl
      | ok p => obtain ⟨v, r2⟩ := p; rfl

theorem synthBoolF_eq (fuel : Nat) (ctx : Ctx) (d : Int) (r : Oracle) (h : 1 ≤ fuel) :
    synthBoolF fuel ctx d r = some (synthBool ctx d r) := by
  match fuel with
  | 0 => exact absurd h (by omega)
  | f + 1 => rfl

theorem synthListLenF_eq (fuel : Nat) (ctx : Ctx) (d : Int) (r : Oracle)
    (h : 2 * d.toNat + 1 ≤ fuel) :
    synthListLenF fuel ctx d r = some (synthListLen ctx d r) := by
  match fuel with
  | 0 => exact absurd h (by omega)
  | f + 1 =>
    simp only [synthListLenF]
    rw [synthListLen]
    by_cases hle : d ≤ 1
    · rw [if_pos hle, if_pos hle]
    · rw [if_neg hle, if_neg hle]
      rw [synthListF_eq f ctx (d - 1) r (by omega)]
      cases hv : synthList ctx (d - 1) r with
      | error e => rfl
      | ok p => obtain ⟨inner, r2⟩ := p; rfl

theorem synthIntF_AddF_eq : ∀ fuel : Nat, ∀ (d : Int) (ctx : Ctx) (r : Oracle),
    (2 * d.toNat + 1 ≤ fuel → synthIntAddF fuel ctx d r = some (synthIntAdd ctx d r)) ∧
    (2 * d.toNat + 2 ≤ fuel → synthIntF fuel ctx d r = some (synthInt ctx d r)) := by
  intro fuel
  induction fuel with
  | zero => intro d ctx r; exact ⟨fun h => absurd h (by omega), fun h => absurd h (by omega)⟩
  | succ f ih =>
    intro d ctx r
    constructor
    · intro h
      simp only [synthIntAddF]
      rw [synthIntAdd]
      by_cases hle : d ≤ 1
      · rw [if_pos hle, dif_pos hle]
      · rw [if_neg hle, dif_neg hle]
        rw [(ih (d - 1) ctx r).2 (by omega)]
        cases hL : synthInt ctx (d - 1) r with
        | error e => rfl
        | ok p =>
          obtain ⟨left, r1⟩ := p
          simp only []
          rw [(ih (d - 1) ctx r1).2 (by omega)]
          cases hR : synthInt ctx (d - 1) r1 with
          | error e => rfl
          | ok q => obtain ⟨right, r2⟩ := q; rfl
    · intro h
      simp only [synthIntF]
      rw [synthInt]
      cases hc : choose r
          ((ctx.int_ops.filter
            (fun op => (op == IntOp.synthIntConst && !ctx.int_literals.isEmpty)
                    || (op != IntOp.synthIntConst && decide (1 < d)))).map Sum.inl ++
           (ctx.input_args.filter (fun a => a.argtype == Ty.int)).map Sum.inr) with
      | error e => rfl
      | ok p =>
        obtain ⟨c, r2⟩ := p
        match c with
        | Sum.inr a => rfl
        | Sum.inl IntOp.synthIntConst => exact synthIntConstF_eq f ctx d r2 (by omega)
        | Sum.inl IntOp.synthIntAdd => exact (ih d ctx r2).1 (by omega)
        | Sum.inl IntOp.synthListLen => exact synthListLenF_eq f ctx d r2 (by omega)

theorem synthStrF_AddF_eq : ∀ fuel : Nat, ∀ (d : Int) (ctx : Ctx) (r : Oracle),
    (2 * d.toNat + 1 ≤ fuel → synthStrAddF fuel ctx d r = some (synthStrAdd ctx d r)) ∧
    (2 * d.toNat + 2 ≤ fuel → synthStrF fuel ctx d r = some (synthStr ctx d r)) := by
  intro fuel
  induction fuel with
  | zero => intro d ctx r; exact ⟨fun h => absurd h (by omega), fun h => absurd h (by omega)⟩
  | succ f ih =>
    intro d ctx r
    constructor
    · intro h
      simp only [synthStrAddF]
      rw [synthStrAdd]
      by_cases hle : d ≤ 1
      · rw [if_pos hle, dif_pos hle]
      · rw [if_neg hle, dif_neg hle]
        rw [(ih (d - 1) ctx r).2 (by omega)]
        cases hL : synthStr ctx (d - 1) r with
        | error e => rfl
        | ok p =>
          obtain ⟨left, r1⟩ := p
          simp only []
          rw [(ih (d - 1) ctx r1).2 (by omega)]
          cases hR : synthStr ctx (d - 1) r1 with
          | error e => rfl
          | ok q => obtain ⟨right, r2⟩ := q; rfl
    · intro h
      simp only [synthStrF]
      rw [synthStr]
      cases hc : choose r
          ((ctx.str_ops.filter
            (fun op => (op == StrOp.synthStrConst && !ctx.str_literals.isEmpty)
                    || (op != StrOp.synthStrConst && decide (1 < d)))).map Sum.inl ++
           (ctx.input_args.filter (fun a => a.argtype == Ty.str)).map Sum.inr) with
      | error e => rfl
      | ok p =>
        obtain ⟨c, r2⟩ := p
        match c with
        | Sum.inr a => rfl
        | Sum.inl StrOp.synthStrConst => exact synthStrConstF_eq f ctx d r2 (by omega)
        | Sum.inl StrOp.synthStrAdd => exact (ih d ctx r2).1 (by omega)

theorem evaluateF_eq : ∀ (n : Node) (fuel : Nat) (env : Env), ndepth n < fuel →
    evaluateF fuel n env = some (evaluate n env) := by
  intro n
  induction n with
  | synthArg name ty =>
    intro fuel env h
    match fuel with
    | 0 => exact absurd h (by omega)
    | f + 1 =>
      simp only [evaluateF, evaluate]
      cases env name with
      | none => rfl
      | some v => rfl
  | synthIntConst v =>
    intro fuel env h
    match fuel with
    | 0 => exact absurd h (by omega)
    | f + 1 => rfl
  | synthBoolConst v =>
    intro fuel env h
    match fuel with
    | 0 => exact absurd h (by omega)
    | f + 1 => rfl
  | synthStrConst v =>
    intro fuel env h
    match fuel with
    | 0 => exact absurd h (by omega)
    | f + 1 => rfl
  | synthIntAdd l r ihl ihr =>
    intro fuel env h
    match fuel with
    | 0 => exact absurd h (by omega)
    | f + 1 =>
      simp only [ndepth] at h
      simp only [evaluateF, evaluate]
      rw [ihl f env (by omega)]
      cases hL : evaluate l env with
      | error e => rfl
      | ok a =>
        simp only []
        rw [ihr f env (by omega)]
        cases hR : evaluate r env with
        | error e => rfl
        | ok b => rfl
  | synthListLen t iht =>
    intro fuel env h
    match fuel with
    | 0 => exact absurd h (by omega)
    | f + 1 =>
      simp only [ndepth] at h
      simp only [evaluateF, evaluate]
      rw [iht f env (by omega)]
      cases hT : evaluate t env with
      | error e => rfl
      | ok v => rfl
  | synthBoolAnd l r ihl ihr =>
    intro fuel env h
    match fuel with
    | 0 => exact absurd h (by omega)
    | f + 1 =>
      simp only [ndepth] at h
      simp only [evaluateF, evaluate]
      rw [ihl f env (by omega)]
      cases hL : evaluate l env with
      | error e => rfl
      | ok a =>
        simp only [bind_ok_eq]
        by_cases ht : truthy a
        · rw [if_pos ht, if_pos ht]
          exact ihr f env (by omega)
        · rw [if_neg ht, if_neg ht]
  | synthStrAdd l r ihl ihr =>
    intro fuel env h
    match fuel with
    | 0 => exact absurd h (by omega)
    | f + 1 =>
      simp only [ndepth] at h
      simp only [evaluateF, evaluate]
      rw [ihl f env (by omega)]
      cases hL : evaluate l env with
      | error e => rfl
      | ok a =>
        simp only []
        rw [ihr f env (by omega)]
        cases hR : evaluate r env with
        | error e => rfl
        | ok b => rfl

/-- Claim C5: synthesis terminates — the step-indexed mirror of the
synthesizer completes (returns `some`, never the out-of-fuel marker)
within `2 * depth.toNat + 2` nested calls and agrees with the recursive
definition, whose own well-foundedness rests on every child call using
depth `d - 1` under the `depth > 1` guard; and evaluation of any tree
terminates within `ndepth + 1` nested calls.  (This holds for every
depth and pool configuration, in particular for `d ≥ 1` with non-empty
literal pools.) -/
theorem synthesis_and_evaluation_terminate :
    (∀ ctx t d r, synthesizeTypeF (2 * d.toNat + 2) ctx t d r =
      some (synthesizeType ctx t d r)) ∧
    (∀ n env, evaluateF (ndepth n + 1) n env = some (evaluate n env)) := by
  constructor
  · intro ctx t d r
    match t with
    | Ty.int => exact (synthIntF_AddF_eq (2 * d.toNat + 2) d ctx r).2 (le_refl _)
    | Ty.bool => exact synthBoolF_eq (2 * d.toNat + 2) ctx d r (by omega)
    | Ty.str => exact (synthStrF_AddF_eq (2 * d.toNat + 2) d ctx r).2 (le_refl _)
    | Ty.list => exact synthListF_eq (2 * d.toNat + 2) ctx d r (by omega)
  · intro n env
    exact evaluateF_eq n (ndepth n + 1) env (by omega)
